import Mathlib

/-!
Shallow embedding of the "Feedback Alignment" notebook
(`Feedback Alignment.ipynb`): a linear function-approximation experiment
and a non-linear (MNIST) experiment, each training a two-layer network
with the feedback-alignment update rule.

The linear experiment is modelled over `ℚ` (executable); the non-linear
experiment needs the sigmoid `1 / (1 + exp (-x))` and is modelled over `ℝ`.
Matrices are Mathlib matrices indexed by `Fin`; the notebook's dimensions
(30-dimensional inputs, 20 hidden units, 10 outputs, batches of 25 columns)
appear as instantiations of dimension-generic definitions, mirroring that
the loop bodies are dimension-agnostic array arithmetic.
-/

open Matrix

/-- Squared Frobenius norm: `np.square(np.linalg.norm(e))` for a matrix `e`. -/
def frobSq {m n : ℕ} (M : Matrix (Fin m) (Fin n) ℚ) : ℚ :=
  ∑ i, ∑ j, (M i j) ^ 2

/-- The mutable variables of the linear experiment, as a record:
the target map `T` (cell `T = np.random.uniform(...)`), the weights `W0`, `W`,
the unused biases `b0`, `b`, the fixed feedback matrix `B`, and the per-epoch
accumulators `delta_W0` (`dW0`), `delta_W` (`dW`) and `loss`. -/
@[ext]
structure LinState (nx nh ny : ℕ) where
  T : Matrix (Fin ny) (Fin nx) ℚ
  W0 : Matrix (Fin nh) (Fin nx) ℚ
  b0 : Fin nh → ℚ
  W : Matrix (Fin ny) (Fin nh) ℚ
  b : Fin ny → ℚ
  B : Matrix (Fin nh) (Fin ny) ℚ
  dW0 : Matrix (Fin nh) (Fin nx) ℚ
  dW : Matrix (Fin ny) (Fin nh) ℚ
  loss : ℚ

variable {nx nh ny k : ℕ}

/-- One iteration of the inner mini-batch loop of the linear experiment
(cell `for epoch in range(num_epochs)`, inner `for i in range(...)`):

    h = W0 @ training_data
    y = W @ h
    e = training_labels - y
    loss += 0.5 * np.square(np.linalg.norm(e))
    delta_BP = W.T @ e
    delta_FA = B @ e
    delta_W = delta_W + e @ h.T
    delta_W0 = delta_W0 + B @ e @ training_data.T

`delta_BP` and `delta_FA` are computed but only `B @ e` reaches an
accumulator; the body assigns no network weight, so the state returned
differs from `s` only in the accumulator fields. -/
def linBatchStep (xb : Matrix (Fin nx) (Fin k) ℚ) (yb : Matrix (Fin ny) (Fin k) ℚ)
    (s : LinState nx nh ny) : LinState nx nh ny :=
  let h := s.W0 * xb
  let y := s.W * h
  let e := yb - y
  { s with
    loss := s.loss + (1 / 2) * frobSq e
    dW := s.dW + e * hᵀ
    dW0 := s.dW0 + s.B * e * xbᵀ }

/-- One epoch of the linear training loop: reset the accumulators
(`delta_W0, delta_W, loss = 0, 0, 0`), fold the batch step over the list of
`(x_train_batches[i], y_train_batches[i])` pairs, then update the weights once:

    W = W + (eta / (x_train.shape[1])) * delta_W
    W0 = W0 + (eta / (x_train.shape[1])) * delta_W0

`eta` and `nTrain` (`x_train.shape[1]`) are the globals read by the loop. -/
def linEpoch (bs : List (Matrix (Fin nx) (Fin k) ℚ × Matrix (Fin ny) (Fin k) ℚ))
    (eta : ℚ) (nTrain : ℕ) (s : LinState nx nh ny) : LinState nx nh ny :=
  let s1 := bs.foldl (fun st p => linBatchStep p.1 p.2 st)
    { s with dW0 := 0, dW := 0, loss := 0 }
  { s1 with
    W := s1.W + (eta / (nTrain : ℚ)) • s1.dW
    W0 := s1.W0 + (eta / (nTrain : ℚ)) • s1.dW0 }

/-- The epoch-end weight update of the linear loop, as a function of the state
reached by the mini-batch fold:

    W = W + (eta / (x_train.shape[1])) * delta_W
    W0 = W0 + (eta / (x_train.shape[1])) * delta_W0
-/
def linWeightUpdate (eta : ℚ) (nTrain : ℕ) (s1 : LinState nx nh ny) : LinState nx nh ny :=
  { s1 with
    W := s1.W + (eta / (nTrain : ℚ)) • s1.dW
    W0 := s1.W0 + (eta / (nTrain : ℚ)) • s1.dW0 }

/-- Hyperparameter cell of the linear experiment: `eta = 0.1`. -/
def etaLin : ℚ := 1 / 10

/-- Hyperparameter cell of the linear experiment: `num_epochs = 1000`. -/
def numEpochsLin : ℕ := 1000

/-- Hyperparameter cell of the linear experiment: `batch_size = 20`. -/
def batchSizeLin : ℕ := 20

/-- The full linear training loop: `for epoch in range(num_epochs)` applies
the epoch body once per element of `range(num_epochs)` and nothing else can
exit or repeat it. -/
def linearTrain (bs : List (Matrix (Fin nx) (Fin k) ℚ × Matrix (Fin ny) (Fin k) ℚ))
    (eta : ℚ) (nTrain : ℕ) (numEpochs : ℕ) (s : LinState nx nh ny) : LinState nx nh ny :=
  (List.range numEpochs).foldl (fun st _ => linEpoch bs eta nTrain st) s

/-- Test-evaluation cell of the linear experiment:

    h = W0 @ x_test
    y = W @ h
    e = y_test - y
    test_error = 0.5 * np.square(np.linalg.norm(e))

A pure read of the state. -/
def testError {kt : ℕ} (s : LinState nx nh ny)
    (xtest : Matrix (Fin nx) (Fin kt) ℚ) (ytest : Matrix (Fin ny) (Fin kt) ℚ) : ℚ :=
  (1 / 2) * frobSq (ytest - s.W * (s.W0 * xtest))

/-- Data-generation cell: `y_data = T @ x_data`. -/
def yData {ni : ℕ} (T : Matrix (Fin ny) (Fin nx) ℚ)
    (xdata : Matrix (Fin nx) (Fin ni) ℚ) : Matrix (Fin ny) (Fin ni) ℚ :=
  T * xdata

/-! ### Batching: `train_test_split` sizes and `np.split` semantics -/

/-- Python `int()` on a rational: truncation toward zero. -/
def pyInt (q : ℚ) : ℤ :=
  if 0 ≤ q then ⌊q⌋ else ⌈q⌉

/-- Python `%` on non-integer operands (`N % sections` inside `np.split` when
`sections` is the float `num_batches`): `x - y * floor (x / y)`. -/
def pyFloatMod (x y : ℚ) : ℚ :=
  x - y * ⌊x / y⌋

/-- Model of `np.array_split(ary, sections, axis=1)` restricted to the section sizes it
produces: with `Nsections = int(sections)`, `Neach_section, extras =
divmod(Ntotal, Nsections)`, it yields `extras` sections of `Neach_section + 1`
columns followed by `Nsections - extras` sections of `Neach_section` columns;
`Nsections <= 0` raises. Modelled from numpy's `array_split`, which the
notebook reaches through `np.split`. -/
def npArraySplitSizes (total : ℕ) (sections : ℤ) : Option (List ℕ) :=
  if sections ≤ 0 then none
  else
    let ns := sections.toNat
    some (List.replicate (total % ns) (total / ns + 1) ++
      List.replicate (ns - total % ns) (total / ns))

/-- Model of `np.split(ary, sections, axis=1)` for a scalar `sections` (the notebook
passes the float `num_batches = 3.75`): raise `ValueError` when
`Ntotal % sections` is nonzero (Python float modulo), otherwise defer to
`array_split`. Modelled from numpy's `split`. -/
def npSplitSizes (total : ℕ) (sections : ℚ) : Option (List ℕ) :=
  if pyFloatMod (total : ℚ) sections = 0 then npArraySplitSizes total (pyInt sections)
  else none

/-- Cut a list of columns into consecutive chunks of the given sizes (how
`np.split` slices the array along `axis=1` once the section sizes are fixed). -/
def chunksOf {α : Type} : List ℕ → List α → List (List α)
  | [], _ => []
  | n :: ns, l => l.take n :: chunksOf ns (l.drop n)

/-- Sample counts of `sklearn.model_selection.train_test_split` for a float
`test_size`: the test set gets `ceil(n * test_size)` samples and the train set
the rest. Modelled from sklearn's documented `_validate_shuffle_split`
behaviour; the notebook's recorded output `x_test.shape == (30, 25)` confirms
it at `n = 100`, `test_size = 0.25`. -/
def trainTestSizes (n : ℕ) (testSize : ℚ) : ℕ × ℕ :=
  (n - (⌈(n : ℚ) * testSize⌉).toNat, (⌈(n : ℚ) * testSize⌉).toNat)

/-- Data-generation cell: `num_inputs = 100`. -/
def numInputs : ℕ := 100

/-! ### Non-linear (MNIST) experiment, over `ℝ` -/

/-- The helper `sigma` of the non-linear experiment:

    def sigma(x):
        return 1 / (1 + np.exp(-x))
-/
noncomputable def sigma (x : ℝ) : ℝ :=
  1 / (1 + Real.exp (-x))

/-- Entrywise application of `sigma` to a matrix (numpy broadcasting of
`sigma` over an array). -/
noncomputable def matSigma {m n : ℕ} (M : Matrix (Fin m) (Fin n) ℝ) :
    Matrix (Fin m) (Fin n) ℝ :=
  Matrix.of fun i j => sigma (M i j)

/-- The all-ones matrix (`np.ones_like`). -/
def onesMat (m n : ℕ) : Matrix (Fin m) (Fin n) ℝ :=
  Matrix.of fun _ _ => 1

/-- Mutable variables of the non-linear experiment: weights `W0`, `W`, unused
biases `b0`, `b`, fixed feedback matrix `B`, and the per-epoch accumulators
`delta_W0`, `delta_W`, `loss`, `size`. -/
@[ext]
structure NLState (nx nh ny : ℕ) where
  W0 : Matrix (Fin nh) (Fin nx) ℝ
  b0 : Fin nh → ℝ
  W : Matrix (Fin ny) (Fin nh) ℝ
  b : Fin ny → ℝ
  B : Matrix (Fin nh) (Fin ny) ℝ
  dW0 : Matrix (Fin nh) (Fin nx) ℝ
  dW : Matrix (Fin ny) (Fin nh) ℝ
  loss : ℝ
  size : ℕ

/-- Squared Frobenius norm over `ℝ` (the non-linear loop's
`np.square(np.linalg.norm(e))`). -/
noncomputable def frobSqR {m n : ℕ} (M : Matrix (Fin m) (Fin n) ℝ) : ℝ :=
  ∑ i, ∑ j, (M i j) ^ 2

/-- One iteration of the non-linear experiment's inner loop. `xb` is
`training_data` after `view(-1, 784)`, one sample per row; `yb` is the one-hot
encoded `training_labels`, one sample per column:

    h = sigma(W0 @ training_data.T)
    y = sigma(W @ h)
    e = training_labels - y
    loss += 0.5 * np.square(np.linalg.norm(e))
    delta_BP = W.T @ e
    delta_FA = B @ e
    one_y, one_h = np.ones_like(y), np.ones_like(h)
    delta_W = delta_W + (e * (y * (one_y - y))) @ h.T
    delta_W0 = delta_W0 + (delta_FA * (h * (one_h - h))) @ training_data
    size += training_data.shape[0]

where `*` is numpy's elementwise (Hadamard) product. -/
noncomputable def nlBatchStep {kb : ℕ} (xb : Matrix (Fin kb) (Fin nx) ℝ)
    (yb : Matrix (Fin ny) (Fin kb) ℝ) (s : NLState nx nh ny) : NLState nx nh ny :=
  let h := matSigma (s.W0 * xbᵀ)
  let y := matSigma (s.W * h)
  let e := yb - y
  let deltaFA := s.B * e
  { s with
    loss := s.loss + (1 / 2) * frobSqR e
    dW := s.dW + Matrix.hadamard e (Matrix.hadamard y (onesMat ny kb - y)) * hᵀ
    dW0 := s.dW0 + Matrix.hadamard deltaFA (Matrix.hadamard h (onesMat nh kb - h)) * xb
    size := s.size + kb }

/-- One epoch of the non-linear training loop: reset
`delta_W0, delta_W, loss, size = 0, 0, 0, 0`, fold the batch step over the
loader's batches, then update each weight matrix once with
`(eta / size) * delta`. -/
noncomputable def nlEpoch {kb : ℕ}
    (bs : List (Matrix (Fin kb) (Fin nx) ℝ × Matrix (Fin ny) (Fin kb) ℝ))
    (eta : ℝ) (s : NLState nx nh ny) : NLState nx nh ny :=
  let s1 := bs.foldl (fun st p => nlBatchStep p.1 p.2 st)
    { s with dW0 := 0, dW := 0, loss := 0, size := 0 }
  { s1 with
    W := s1.W + (eta / (s1.size : ℝ)) • s1.dW
    W0 := s1.W0 + (eta / (s1.size : ℝ)) • s1.dW0 }

/-- The epoch-end weight update of the non-linear loop, as a function of the
state reached by the batch fold: `W = W + (eta / size) * delta_W` and
`W0 = W0 + (eta / size) * delta_W0`. -/
noncomputable def nlWeightUpdate (eta : ℝ) (s1 : NLState nx nh ny) : NLState nx nh ny :=
  { s1 with
    W := s1.W + (eta / (s1.size : ℝ)) • s1.dW
    W0 := s1.W0 + (eta / (s1.size : ℝ)) • s1.dW0 }

/-! ### Error propagation through the batch iteration

The non-linear loop pulls its batches from a `DataLoader` whose background
workers can raise mid-iteration (the notebook transcript records exactly such
a crash). Neither loop, nor `get_loaders`, contains a `try`/`except`, so a
raised error aborts the iteration at the point it occurs. We model the
iteration source as a list of `Except`-valued batch fetches and the loop as
the fold below: an `error` fetch stops the fold and surfaces the error
together with the state as it stood at the failure point. -/

/-- Run a loop body over a fallible iterator. Each successful fetch feeds the
loop body; a failed fetch propagates: the result is the error paired with the
state built so far, and no construct turns an `error` back into an `ok`. -/
def runFallible {σ β ε : Type} (step : σ → β → σ) :
    List (Except ε β) → σ → Except (ε × σ) σ
  | [], s => Except.ok s
  | Except.ok b :: rest, s => runFallible step rest (step s b)
  | Except.error e :: _, s => Except.error (e, s)

/-! ### Closed forms of the linear epoch's accumulators

The per-batch quantities of the linear inner loop, written as functions of the
weights the epoch started with (`h = W0 @ x`, `y = W @ h`, `e = y* - y`), and
the totals each accumulator reaches over a batch list. -/

/-- Hidden activation `h = W0 @ training_data` of one linear batch. -/
def linH (s : LinState nx nh ny) (xb : Matrix (Fin nx) (Fin k) ℚ) :
    Matrix (Fin nh) (Fin k) ℚ :=
  s.W0 * xb

/-- Error `e = training_labels - W @ (W0 @ training_data)` of one linear batch. -/
def linE (s : LinState nx nh ny) (xb : Matrix (Fin nx) (Fin k) ℚ)
    (yb : Matrix (Fin ny) (Fin k) ℚ) : Matrix (Fin ny) (Fin k) ℚ :=
  yb - s.W * (s.W0 * xb)

/-- Total `delta_W` accumulated over a batch list: the sum of `e @ h.T`. -/
def deltaWOf (s : LinState nx nh ny)
    (bs : List (Matrix (Fin nx) (Fin k) ℚ × Matrix (Fin ny) (Fin k) ℚ)) :
    Matrix (Fin ny) (Fin nh) ℚ :=
  (bs.map (fun p => linE s p.1 p.2 * (linH s p.1)ᵀ)).sum

/-- Total `delta_W0` accumulated over a batch list: the sum of `B @ e @ x.T`. -/
def deltaW0Of (s : LinState nx nh ny)
    (bs : List (Matrix (Fin nx) (Fin k) ℚ × Matrix (Fin ny) (Fin k) ℚ)) :
    Matrix (Fin nh) (Fin nx) ℚ :=
  (bs.map (fun p => s.B * linE s p.1 p.2 * p.1ᵀ)).sum

/-- Total `loss` accumulated over a batch list: the sum of `0.5 * ||e||^2`. -/
def lossOf (s : LinState nx nh ny)
    (bs : List (Matrix (Fin nx) (Fin k) ℚ × Matrix (Fin ny) (Fin k) ℚ)) : ℚ :=
  (bs.map (fun p => (1 / 2) * frobSq (linE s p.1 p.2))).sum

/-! ### A concrete initialization of the linear experiment

All random draws below lie in the support of the notebook's distributions:
`T` has entries in `[-1, 1]`, `x_data` is unconstrained (`randn`), and the
weight and feedback draws include `0` in their ranges. The labels are the
target map applied to the inputs, and the three batches of 25 columns are the
shape `np.split` produces from the 75 training columns. -/

/-- A target map in `[-1, 1]^(10 x 30)`: ones in the first column, zeros
elsewhere. -/
def tStar : Matrix (Fin 10) (Fin 30) ℚ :=
  Matrix.of fun _ j => if j = 0 then 1 else 0

/-- One input batch (30 x 25): every column is the first standard basis
vector. -/
def xBatchStar : Matrix (Fin 30) (Fin 25) ℚ :=
  Matrix.of fun i _ => if i = 0 then 1 else 0

/-- The matching label batch (10 x 25): `tStar` applied columnwise, the
all-ones matrix. -/
def yBatchStar : Matrix (Fin 10) (Fin 25) ℚ :=
  Matrix.of fun _ _ => 1

/-- The three training batches of the concrete run. -/
def batchesStar : List (Matrix (Fin 30) (Fin 25) ℚ × Matrix (Fin 10) (Fin 25) ℚ) :=
  List.replicate 3 (xBatchStar, yBatchStar)

/-- The concrete initial state: target `tStar`, all weights, biases and the
feedback matrix drawn as `0` (a value every one of the notebook's
initialization ranges contains), accumulators `0`. -/
def sStar : LinState 30 20 10 :=
  ⟨tStar, 0, 0, 0, 0, 0, 0, 0, 0⟩

/-! ## Helper lemmas -/

/-- The mini-batch loop body only writes the accumulators (stated as a record
equation in terms of the epoch-start forward pass). -/
lemma linBatchStep_eq (xb : Matrix (Fin nx) (Fin k) ℚ) (yb : Matrix (Fin ny) (Fin k) ℚ)
    (s : LinState nx nh ny) :
    linBatchStep xb yb s =
      { s with
        loss := s.loss + (1 / 2) * frobSq (linE s xb yb)
        dW := s.dW + linE s xb yb * (linH s xb)ᵀ
        dW0 := s.dW0 + s.B * linE s xb yb * xbᵀ } :=
  rfl

/-- Threading the full state through the mini-batch loop leaves every
non-accumulator field untouched. -/
lemma foldLin_frame
    (bs : List (Matrix (Fin nx) (Fin k) ℚ × Matrix (Fin ny) (Fin k) ℚ))
    (s : LinState nx nh ny) :
    (bs.foldl (fun st p => linBatchStep p.1 p.2 st) s).T = s.T ∧
    (bs.foldl (fun st p => linBatchStep p.1 p.2 st) s).W0 = s.W0 ∧
    (bs.foldl (fun st p => linBatchStep p.1 p.2 st) s).W = s.W ∧
    (bs.foldl (fun st p => linBatchStep p.1 p.2 st) s).b0 = s.b0 ∧
    (bs.foldl (fun st p => linBatchStep p.1 p.2 st) s).b = s.b ∧
    (bs.foldl (fun st p => linBatchStep p.1 p.2 st) s).B = s.B := by
  induction bs generalizing s with
  | nil => exact ⟨rfl, rfl, rfl, rfl, rfl, rfl⟩
  | cons hd tl ih => exact ih (linBatchStep hd.1 hd.2 s)

/-- The accumulators reached by the mini-batch loop are the closed-form sums
taken at the weights the loop started with. -/
lemma foldLin_accum
    (bs : List (Matrix (Fin nx) (Fin k) ℚ × Matrix (Fin ny) (Fin k) ℚ))
    (s : LinState nx nh ny) :
    (bs.foldl (fun st p => linBatchStep p.1 p.2 st) s).dW = s.dW + deltaWOf s bs ∧
    (bs.foldl (fun st p => linBatchStep p.1 p.2 st) s).dW0 = s.dW0 + deltaW0Of s bs ∧
    (bs.foldl (fun st p => linBatchStep p.1 p.2 st) s).loss = s.loss + lossOf s bs := by
  induction bs generalizing s with
  | nil =>
    refine ⟨?_, ?_, ?_⟩ <;> simp [deltaWOf, deltaW0Of, lossOf]
  | cons hd tl ih =>
    obtain ⟨h1, h2, h3⟩ := ih (linBatchStep hd.1 hd.2 s)
    refine ⟨?_, ?_, ?_⟩
    · calc (List.foldl (fun st p => linBatchStep p.1 p.2 st)
            (linBatchStep hd.1 hd.2 s) tl).dW
          = (linBatchStep hd.1 hd.2 s).dW + deltaWOf (linBatchStep hd.1 hd.2 s) tl := h1
        _ = s.dW + linE s hd.1 hd.2 * (linH s hd.1)ᵀ + deltaWOf s tl := rfl
        _ = s.dW + deltaWOf s (hd :: tl) := by
            simp [deltaWOf, add_assoc]
    · calc (List.foldl (fun st p => linBatchStep p.1 p.2 st)
            (linBatchStep hd.1 hd.2 s) tl).dW0
          = (linBatchStep hd.1 hd.2 s).dW0 + deltaW0Of (linBatchStep hd.1 hd.2 s) tl := h2
        _ = s.dW0 + s.B * linE s hd.1 hd.2 * hd.1ᵀ + deltaW0Of s tl := rfl
        _ = s.dW0 + deltaW0Of s (hd :: tl) := by
            simp [deltaW0Of, add_assoc]
    · calc (List.foldl (fun st p => linBatchStep p.1 p.2 st)
            (linBatchStep hd.1 hd.2 s) tl).loss
          = (linBatchStep hd.1 hd.2 s).loss + lossOf (linBatchStep hd.1 hd.2 s) tl := h3
        _ = s.loss + (1 / 2) * frobSq (linE s hd.1 hd.2) + lossOf s tl := rfl
        _ = s.loss + lossOf s (hd :: tl) := by
            simp [lossOf, add_assoc]

/-- A loop `for epoch in range(n)` with a body that ignores the index applies the
body exactly `n` times. -/
lemma foldl_range_const {σ : Type} (f : σ → σ) (n : ℕ) (s : σ) :
    (List.range n).foldl (fun st _ => f st) s = f^[n] s := by
  induction n with
  | zero => rfl
  | succ n ih =>
    rw [List.range_succ, List.foldl_append, ih, List.foldl_cons, List.foldl_nil,
      Function.iterate_succ_apply']

/-- The linear training loop is the epoch body iterated. -/
lemma linearTrain_iterate
    (bs : List (Matrix (Fin nx) (Fin k) ℚ × Matrix (Fin ny) (Fin k) ℚ))
    (eta : ℚ) (nTrain N : ℕ) (s : LinState nx nh ny) :
    linearTrain bs eta nTrain N s = (linEpoch bs eta nTrain)^[N] s :=
  foldl_range_const (linEpoch bs eta nTrain) N s

section LinEpochProjections

variable (bs : List (Matrix (Fin nx) (Fin k) ℚ × Matrix (Fin ny) (Fin k) ℚ))
variable (eta : ℚ) (nTrain : ℕ) (s : LinState nx nh ny)

/-- After one epoch, `W` has been updated exactly once, by adding
`(eta / nTrain)` times the accumulated `delta_W` of the epoch-start weights. -/
lemma linEpoch_W :
    (linEpoch bs eta nTrain s).W = s.W + (eta / (nTrain : ℚ)) • deltaWOf s bs := by
  have hf := (foldLin_frame bs { s with dW0 := 0, dW := 0, loss := 0 }).2.2.1
  have ha := (foldLin_accum bs { s with dW0 := 0, dW := 0, loss := 0 }).1
  calc (linEpoch bs eta nTrain s).W
      = (List.foldl (fun st p => linBatchStep p.1 p.2 st)
          { s with dW0 := 0, dW := 0, loss := 0 } bs).W
        + (eta / (nTrain : ℚ)) • (List.foldl (fun st p => linBatchStep p.1 p.2 st)
          { s with dW0 := 0, dW := 0, loss := 0 } bs).dW := rfl
    _ = s.W + (eta / (nTrain : ℚ)) •
          ((0 : Matrix (Fin ny) (Fin nh) ℚ) + deltaWOf s bs) := by
            rw [hf, ha]; exact rfl
    _ = s.W + (eta / (nTrain : ℚ)) • deltaWOf s bs := by rw [zero_add]

/-- After one epoch, `W0` has been updated exactly once, by adding
`(eta / nTrain)` times the accumulated `delta_W0` of the epoch-start weights. -/
lemma linEpoch_W0 :
    (linEpoch bs eta nTrain s).W0 = s.W0 + (eta / (nTrain : ℚ)) • deltaW0Of s bs := by
  have hf := (foldLin_frame bs { s with dW0 := 0, dW := 0, loss := 0 }).2.1
  have ha := (foldLin_accum bs { s with dW0 := 0, dW := 0, loss := 0 }).2.1
  calc (linEpoch bs eta nTrain s).W0
      = (List.foldl (fun st p => linBatchStep p.1 p.2 st)
          { s with dW0 := 0, dW := 0, loss := 0 } bs).W0
        + (eta / (nTrain : ℚ)) • (List.foldl (fun st p => linBatchStep p.1 p.2 st)
          { s with dW0 := 0, dW := 0, loss := 0 } bs).dW0 := rfl
    _ = s.W0 + (eta / (nTrain : ℚ)) •
          ((0 : Matrix (Fin nh) (Fin nx) ℚ) + deltaW0Of s bs) := by
            rw [hf, ha]; exact rfl
    _ = s.W0 + (eta / (nTrain : ℚ)) • deltaW0Of s bs := by rw [zero_add]

/-- The loss an epoch reports is the closed-form per-epoch total, computed
from the epoch-start weights. -/
lemma linEpoch_loss : (linEpoch bs eta nTrain s).loss = lossOf s bs := by
  have ha := (foldLin_accum bs { s with dW0 := 0, dW := 0, loss := 0 }).2.2
  calc (linEpoch bs eta nTrain s).loss
      = (List.foldl (fun st p => linBatchStep p.1 p.2 st)
          { s with dW0 := 0, dW := 0, loss := 0 } bs).loss := rfl
    _ = (0 : ℚ) + lossOf s bs := ha
    _ = lossOf s bs := zero_add _

/-- An epoch never writes the target matrix `T`. -/
lemma linEpoch_T : (linEpoch bs eta nTrain s).T = s.T :=
  (foldLin_frame bs { s with dW0 := 0, dW := 0, loss := 0 }).1

/-- An epoch never writes the feedback matrix `B`. -/
lemma linEpoch_B : (linEpoch bs eta nTrain s).B = s.B :=
  (foldLin_frame bs { s with dW0 := 0, dW := 0, loss := 0 }).2.2.2.2.2

/-- An epoch never writes the bias `b0`. -/
lemma linEpoch_b0 : (linEpoch bs eta nTrain s).b0 = s.b0 :=
  (foldLin_frame bs { s with dW0 := 0, dW := 0, loss := 0 }).2.2.2.1

/-- An epoch never writes the bias `b`. -/
lemma linEpoch_b : (linEpoch bs eta nTrain s).b = s.b :=
  (foldLin_frame bs { s with dW0 := 0, dW := 0, loss := 0 }).2.2.2.2.1

end LinEpochProjections

/-! ### Bias non-interference helpers -/

/-- The linear batch body never reads `b0` or `b`. -/
lemma linBatchStep_bias (xb : Matrix (Fin nx) (Fin k) ℚ) (yb : Matrix (Fin ny) (Fin k) ℚ)
    (s : LinState nx nh ny) (v0 : Fin nh → ℚ) (v : Fin ny → ℚ) :
    linBatchStep xb yb { s with b0 := v0, b := v } =
      { linBatchStep xb yb s with b0 := v0, b := v } :=
  rfl

/-- Replacing the biases commutes with the whole mini-batch fold. -/
lemma foldLin_bias
    (bs : List (Matrix (Fin nx) (Fin k) ℚ × Matrix (Fin ny) (Fin k) ℚ))
    (s : LinState nx nh ny) (v0 : Fin nh → ℚ) (v : Fin ny → ℚ) :
    List.foldl (fun st p => linBatchStep p.1 p.2 st) { s with b0 := v0, b := v } bs =
      { List.foldl (fun st p => linBatchStep p.1 p.2 st) s bs with b0 := v0, b := v } := by
  induction bs generalizing s with
  | nil => rfl
  | cons hd tl ih =>
    rw [List.foldl_cons, List.foldl_cons, linBatchStep_bias]
    exact ih (linBatchStep hd.1 hd.2 s)

/-- Replacing the biases commutes with a whole epoch. -/
lemma linEpoch_bias
    (bs : List (Matrix (Fin nx) (Fin k) ℚ × Matrix (Fin ny) (Fin k) ℚ))
    (eta : ℚ) (nTrain : ℕ) (s : LinState nx nh ny) (v0 : Fin nh → ℚ) (v : Fin ny → ℚ) :
    linEpoch bs eta nTrain { s with b0 := v0, b := v } =
      { linEpoch bs eta nTrain s with b0 := v0, b := v } := by
  show linWeightUpdate eta nTrain (List.foldl (fun st p => linBatchStep p.1 p.2 st)
      { T := s.T, W0 := s.W0, b0 := v0, W := s.W, b := v, B := s.B,
        dW0 := 0, dW := 0, loss := 0 } bs) =
    { linEpoch bs eta nTrain s with b0 := v0, b := v }
  have h : (List.foldl (fun st p => linBatchStep p.1 p.2 st)
      { T := s.T, W0 := s.W0, b0 := v0, W := s.W, b := v, B := s.B,
        dW0 := 0, dW := 0, loss := 0 } bs) =
      { List.foldl (fun st p => linBatchStep p.1 p.2 st)
        { s with dW0 := 0, dW := 0, loss := 0 } bs with b0 := v0, b := v } :=
    foldLin_bias bs { s with dW0 := 0, dW := 0, loss := 0 } v0 v
  rw [h]; exact rfl

/-- Replacing the biases commutes with the full training loop. -/
lemma linearTrain_bias
    (bs : List (Matrix (Fin nx) (Fin k) ℚ × Matrix (Fin ny) (Fin k) ℚ))
    (eta : ℚ) (nTrain N : ℕ) (s : LinState nx nh ny) (v0 : Fin nh → ℚ) (v : Fin ny → ℚ) :
    linearTrain bs eta nTrain N { s with b0 := v0, b := v } =
      { linearTrain bs eta nTrain N s with b0 := v0, b := v } := by
  rw [linearTrain_iterate, linearTrain_iterate]
  induction N generalizing s with
  | zero => rfl
  | succ N ih =>
    rw [Function.iterate_succ_apply, Function.iterate_succ_apply, linEpoch_bias]
    exact ih (linEpoch bs eta nTrain s)

/-- The non-linear batch body never reads `b0` or `b`. -/
lemma nlBatchStep_bias {kb : ℕ} (xb : Matrix (Fin kb) (Fin nx) ℝ)
    (yb : Matrix (Fin ny) (Fin kb) ℝ) (s : NLState nx nh ny)
    (v0 : Fin nh → ℝ) (v : Fin ny → ℝ) :
    nlBatchStep xb yb { s with b0 := v0, b := v } =
      { nlBatchStep xb yb s with b0 := v0, b := v } :=
  rfl

/-- Replacing the biases commutes with the non-linear batch fold. -/
lemma foldNL_bias {kb : ℕ}
    (bs : List (Matrix (Fin kb) (Fin nx) ℝ × Matrix (Fin ny) (Fin kb) ℝ))
    (s : NLState nx nh ny) (v0 : Fin nh → ℝ) (v : Fin ny → ℝ) :
    List.foldl (fun st p => nlBatchStep p.1 p.2 st) { s with b0 := v0, b := v } bs =
      { List.foldl (fun st p => nlBatchStep p.1 p.2 st) s bs with b0 := v0, b := v } := by
  induction bs generalizing s with
  | nil => rfl
  | cons hd tl ih =>
    rw [List.foldl_cons, List.foldl_cons, nlBatchStep_bias]
    exact ih (nlBatchStep hd.1 hd.2 s)

/-- Replacing the biases commutes with a non-linear epoch. -/
lemma nlEpoch_bias {kb : ℕ}
    (bs : List (Matrix (Fin kb) (Fin nx) ℝ × Matrix (Fin ny) (Fin kb) ℝ))
    (eta : ℝ) (s : NLState nx nh ny) (v0 : Fin nh → ℝ) (v : Fin ny → ℝ) :
    nlEpoch bs eta { s with b0 := v0, b := v } =
      { nlEpoch bs eta s with b0 := v0, b := v } := by
  show nlWeightUpdate eta (List.foldl (fun st p => nlBatchStep p.1 p.2 st)
      { W0 := s.W0, b0 := v0, W := s.W, b := v, B := s.B,
        dW0 := 0, dW := 0, loss := 0, size := 0 } bs) =
    { nlEpoch bs eta s with b0 := v0, b := v }
  have h : (List.foldl (fun st p => nlBatchStep p.1 p.2 st)
      { W0 := s.W0, b0 := v0, W := s.W, b := v, B := s.B,
        dW0 := 0, dW := 0, loss := 0, size := 0 } bs) =
      { List.foldl (fun st p => nlBatchStep p.1 p.2 st)
        { s with dW0 := 0, dW := 0, loss := 0, size := 0 } bs with b0 := v0, b := v } :=
    foldNL_bias bs { s with dW0 := 0, dW := 0, loss := 0, size := 0 } v0 v
  rw [h]; exact rfl

/-! ### Non-linear fold frame -/

/-- The non-linear batch fold leaves every non-accumulator field untouched. -/
lemma foldNL_frame {kb : ℕ}
    (bs : List (Matrix (Fin kb) (Fin nx) ℝ × Matrix (Fin ny) (Fin kb) ℝ))
    (s : NLState nx nh ny) :
    (bs.foldl (fun st p => nlBatchStep p.1 p.2 st) s).W0 = s.W0 ∧
    (bs.foldl (fun st p => nlBatchStep p.1 p.2 st) s).W = s.W ∧
    (bs.foldl (fun st p => nlBatchStep p.1 p.2 st) s).b0 = s.b0 ∧
    (bs.foldl (fun st p => nlBatchStep p.1 p.2 st) s).b = s.b ∧
    (bs.foldl (fun st p => nlBatchStep p.1 p.2 st) s).B = s.B := by
  induction bs generalizing s with
  | nil => exact ⟨rfl, rfl, rfl, rfl, rfl⟩
  | cons hd tl ih => exact ih (nlBatchStep hd.1 hd.2 s)

/-- A non-linear epoch never writes the feedback matrix `B`. -/
lemma nlEpoch_B {kb : ℕ}
    (bs : List (Matrix (Fin kb) (Fin nx) ℝ × Matrix (Fin ny) (Fin kb) ℝ))
    (eta : ℝ) (s : NLState nx nh ny) :
    (nlEpoch bs eta s).B = s.B :=
  (foldNL_frame bs { s with dW0 := 0, dW := 0, loss := 0, size := 0 }).2.2.2.2

/-! ### Zero-initialization behaviour of the linear loop -/

/-- With zero weights, zero `B` and zero labels' counterpart, each accumulator
closed form degenerates: `delta_W` vanishes. -/
lemma deltaWOf_zero (s : LinState nx nh ny) (hW0 : s.W0 = 0)
    (bs : List (Matrix (Fin nx) (Fin k) ℚ × Matrix (Fin ny) (Fin k) ℚ)) :
    deltaWOf s bs = 0 := by
  have : ∀ p : Matrix (Fin nx) (Fin k) ℚ × Matrix (Fin ny) (Fin k) ℚ,
      linE s p.1 p.2 * (linH s p.1)ᵀ = 0 := by
    intro p
    rw [linH, hW0, Matrix.zero_mul, Matrix.transpose_zero, Matrix.mul_zero]
  simp only [deltaWOf, this]
  induction bs with
  | nil => rfl
  | cons hd tl ih => simp

/-- With zero feedback matrix, `delta_W0` vanishes. -/
lemma deltaW0Of_zero (s : LinState nx nh ny) (hB : s.B = 0)
    (bs : List (Matrix (Fin nx) (Fin k) ℚ × Matrix (Fin ny) (Fin k) ℚ)) :
    deltaW0Of s bs = 0 := by
  have : ∀ p : Matrix (Fin nx) (Fin k) ℚ × Matrix (Fin ny) (Fin k) ℚ,
      s.B * linE s p.1 p.2 * p.1ᵀ = 0 := by
    intro p
    rw [hB, Matrix.zero_mul, Matrix.zero_mul]
  simp only [deltaW0Of, this]
  induction bs with
  | nil => rfl
  | cons hd tl ih => simp

/-- With a zero output weight matrix the per-batch error is just the labels. -/
lemma lossOf_zero (s : LinState nx nh ny) (hW : s.W = 0)
    (bs : List (Matrix (Fin nx) (Fin k) ℚ × Matrix (Fin ny) (Fin k) ℚ)) :
    lossOf s bs = (bs.map (fun p => (1 / 2) * frobSq p.2)).sum := by
  have : ∀ p : Matrix (Fin nx) (Fin k) ℚ × Matrix (Fin ny) (Fin k) ℚ,
      linE s p.1 p.2 = p.2 := by
    intro p
    rw [linE, hW, Matrix.zero_mul, sub_zero]
  simp only [lossOf, this]

/-- An epoch started from zero weights and zero feedback matrix keeps them
zero and reports the data-only loss, and each further epoch repeats it. -/
lemma linEpoch_zeroWeights
    (bs : List (Matrix (Fin nx) (Fin k) ℚ × Matrix (Fin ny) (Fin k) ℚ))
    (eta : ℚ) (nTrain : ℕ) (s : LinState nx nh ny)
    (hW0 : s.W0 = 0) (hW : s.W = 0) (hB : s.B = 0) :
    (linEpoch bs eta nTrain s).W0 = 0 ∧ (linEpoch bs eta nTrain s).W = 0 ∧
    (linEpoch bs eta nTrain s).B = 0 ∧
    (linEpoch bs eta nTrain s).loss = (bs.map (fun p => (1 / 2) * frobSq p.2)).sum := by
  refine ⟨?_, ?_, ?_, ?_⟩
  · rw [linEpoch_W0, hW0, deltaW0Of_zero s hB, smul_zero, add_zero]
  · rw [linEpoch_W, hW, deltaWOf_zero s hW0, smul_zero, add_zero]
  · rw [linEpoch_B, hB]
  · rw [linEpoch_loss, lossOf_zero s hW]

/-- Iterating epochs from zero weights keeps the weights and feedback zero. -/
lemma iterate_zeroWeights
    (bs : List (Matrix (Fin nx) (Fin k) ℚ × Matrix (Fin ny) (Fin k) ℚ))
    (eta : ℚ) (nTrain : ℕ) (s : LinState nx nh ny)
    (hW0 : s.W0 = 0) (hW : s.W = 0) (hB : s.B = 0) (m : ℕ) :
    ((linEpoch bs eta nTrain)^[m] s).W0 = 0 ∧ ((linEpoch bs eta nTrain)^[m] s).W = 0 ∧
    ((linEpoch bs eta nTrain)^[m] s).B = 0 := by
  induction m with
  | zero => exact ⟨hW0, hW, hB⟩
  | succ m ih =>
    obtain ⟨h1, h2, h3⟩ := ih
    rw [Function.iterate_succ_apply']
    exact ⟨(linEpoch_zeroWeights bs eta nTrain _ h1 h2 h3).1,
      (linEpoch_zeroWeights bs eta nTrain _ h1 h2 h3).2.1,
      (linEpoch_zeroWeights bs eta nTrain _ h1 h2 h3).2.2.1⟩

/-! ### `np.split` slicing -/

/-- Splitting a list into chunks whose sizes sum to its length loses nothing:
the chunks concatenate back, in order, to the original list. -/
lemma chunksOf_join {α : Type} :
    ∀ (sizes : List ℕ) (l : List α), sizes.sum = l.length →
      (chunksOf sizes l).join = l := by
  intro sizes
  induction sizes with
  | nil =>
    intro l h
    have : l = [] := List.eq_nil_of_length_eq_zero (by simpa using h.symm)
    simp [chunksOf, this]
  | cons n ns ih =>
    intro l h
    have hlen : ns.sum = (l.drop n).length := by
      rw [List.length_drop]
      simp only [List.sum_cons] at h
      omega
    simp only [chunksOf, List.join_cons, ih (l.drop n) hlen, List.take_append_drop]

/-- Under the same exact-fit condition, the chunks have exactly the requested
sizes. -/
lemma chunksOf_lengths {α : Type} :
    ∀ (sizes : List ℕ) (l : List α), sizes.sum = l.length →
      (chunksOf sizes l).map List.length = sizes := by
  intro sizes
  induction sizes with
  | nil => intro l _; rfl
  | cons n ns ih =>
    intro l h
    simp only [List.sum_cons] at h
    have hn : n ≤ l.length := by omega
    have hlen : ns.sum = (l.drop n).length := by
      rw [List.length_drop]; omega
    simp only [chunksOf, List.map_cons, List.length_take, ih (l.drop n) hlen,
      min_eq_left hn]

/-! ### Fallible iteration -/

/-- A run whose fetches all succeed completes and is the plain fold. -/
lemma runFallible_ok {σ β ε : Type} (step : σ → β → σ) :
    ∀ (pre : List β) (s : σ),
      runFallible step (pre.map (Except.ok : β → Except ε β)) s =
        Except.ok (pre.foldl step s) := by
  intro pre
  induction pre with
  | nil => intro s; rfl
  | cons hd tl ih => intro s; exact ih (step s hd)

/-- The first failing fetch aborts the run: the error surfaces unchanged,
paired with the state exactly as it stood at the failure point. -/
lemma runFallible_error {σ β ε : Type} (step : σ → β → σ) :
    ∀ (pre : List β) (err : ε) (post : List (Except ε β)) (s : σ),
      runFallible step (pre.map Except.ok ++ Except.error err :: post) s =
        Except.error (err, pre.foldl step s) := by
  intro pre
  induction pre with
  | nil => intro err post s; rfl
  | cons hd tl ih => intro err post s; exact ih err post (step s hd)

/-- The full training loop never writes the feedback matrix `B`. -/
lemma linearTrain_B
    (bs : List (Matrix (Fin nx) (Fin k) ℚ × Matrix (Fin ny) (Fin k) ℚ))
    (eta : ℚ) (nTrain N : ℕ) (s : LinState nx nh ny) :
    (linearTrain bs eta nTrain N s).B = s.B := by
  rw [linearTrain_iterate]
  induction N with
  | zero => rfl
  | succ N ih => rw [Function.iterate_succ_apply', linEpoch_B]; exact ih

/-- The full training loop never writes the target matrix `T`. -/
lemma linearTrain_T
    (bs : List (Matrix (Fin nx) (Fin k) ℚ × Matrix (Fin ny) (Fin k) ℚ))
    (eta : ℚ) (nTrain N : ℕ) (s : LinState nx nh ny) :
    (linearTrain bs eta nTrain N s).T = s.T := by
  rw [linearTrain_iterate]
  induction N with
  | zero => rfl
  | succ N ih => rw [Function.iterate_succ_apply', linEpoch_T]; exact ih

/-- The sigmoid's denominator is positive and its value lies strictly between
`0` and `1`. -/
lemma sigma_bounds (x : ℝ) : 0 < 1 + Real.exp (-x) ∧ 0 < sigma x ∧ sigma x < 1 := by
  have he := Real.exp_pos (-x)
  have hd : 0 < 1 + Real.exp (-x) := by linarith
  refine ⟨hd, div_pos one_pos hd, ?_⟩
  rw [sigma, div_lt_one hd]
  linarith

/-- The derivative factor `sigma x * (1 - sigma x)` is strictly positive. -/
lemma sigma_deriv_pos (x : ℝ) : 0 < sigma x * (1 - sigma x) :=
  mul_pos (sigma_bounds x).2.1 (by linarith [(sigma_bounds x).2.2])

/-! ## Claims -/

/-- Claim C1: in both training loops the error signal sent to the hidden layer
goes through the fixed random matrix `B`, not the transpose of the forward
weight matrix `W`: each linear batch adds `B @ e @ x.T` to `delta_W0`, each
non-linear batch adds `(B @ e * (h * (1 - h))) @ x`, and no operation of
either loop (batch body, epoch, or full training run) ever writes `B`. -/
theorem claim1_error_signal_uses_B :
    (∀ (nx nh ny k : ℕ) (xb : Matrix (Fin nx) (Fin k) ℚ)
       (yb : Matrix (Fin ny) (Fin k) ℚ) (s : LinState nx nh ny),
      (linBatchStep xb yb s).dW0 =
        s.dW0 + s.B * (yb - s.W * (s.W0 * xb)) * xbᵀ ∧
      (linBatchStep xb yb s).B = s.B) ∧
    (∀ (nx nh ny kb : ℕ) (xb : Matrix (Fin kb) (Fin nx) ℝ)
       (yb : Matrix (Fin ny) (Fin kb) ℝ) (s : NLState nx nh ny),
      (nlBatchStep xb yb s).dW0 =
        s.dW0 + Matrix.hadamard (s.B * (yb - matSigma (s.W * matSigma (s.W0 * xbᵀ))))
          (Matrix.hadamard (matSigma (s.W0 * xbᵀ))
            (onesMat nh kb - matSigma (s.W0 * xbᵀ))) * xb ∧
      (nlBatchStep xb yb s).B = s.B) ∧
    (∀ (nx nh ny k : ℕ)
       (bs : List (Matrix (Fin nx) (Fin k) ℚ × Matrix (Fin ny) (Fin k) ℚ))
       (eta : ℚ) (nTrain N : ℕ) (s : LinState nx nh ny),
      (linEpoch bs eta nTrain s).B = s.B ∧ (linearTrain bs eta nTrain N s).B = s.B) ∧
    (∀ (nx nh ny kb : ℕ)
       (bs : List (Matrix (Fin kb) (Fin nx) ℝ × Matrix (Fin ny) (Fin kb) ℝ))
       (eta : ℝ) (s : NLState nx nh ny),
      (nlEpoch bs eta s).B = s.B) := by
  refine ⟨?_, ?_, ?_, ?_⟩
  · intro nx nh ny k xb yb s; exact ⟨rfl, rfl⟩
  · intro nx nh ny kb xb yb s; exact ⟨rfl, rfl⟩
  · intro nx nh ny k bs eta nTrain N s
    exact ⟨linEpoch_B bs eta nTrain s, linearTrain_B bs eta nTrain N s⟩
  · intro nx nh ny kb bs eta s; exact nlEpoch_B bs eta s

/-- Claim C3: every synthetic label is the target map applied to its input:
each column `j` of `y_data = T @ x_data` is `T` applied (as a linear map) to
column `j` of `x_data`. -/
theorem claim3_labels_are_target_of_inputs :
    ∀ (nx ny ni : ℕ) (T : Matrix (Fin ny) (Fin nx) ℚ)
      (xdata : Matrix (Fin nx) (Fin ni) ℚ) (j : Fin ni),
      (fun i => yData T xdata i j) = T.mulVec (fun i => xdata i j) := by
  intro nx ny ni T xdata j
  funext i
  simp [yData, Matrix.mul_apply, Matrix.mulVec, Matrix.dotProduct]

/-- Claim C4: the target matrix `T` is never modified after its creation: the
batch body, each epoch, and the whole 1000-epoch training run all leave the
`T` component of the state unchanged (and the test evaluation is a pure
function of the state). -/
theorem claim4_target_matrix_fixed :
    ∀ (nx nh ny k N : ℕ) (xb : Matrix (Fin nx) (Fin k) ℚ)
      (yb : Matrix (Fin ny) (Fin k) ℚ)
      (bs : List (Matrix (Fin nx) (Fin k) ℚ × Matrix (Fin ny) (Fin k) ℚ))
      (eta : ℚ) (nTrain : ℕ) (s : LinState nx nh ny),
      (linBatchStep xb yb s).T = s.T ∧
      (linEpoch bs eta nTrain s).T = s.T ∧
      (linearTrain bs eta nTrain N s).T = s.T := by
  intro nx nh ny k N xb yb bs eta nTrain s
  exact ⟨rfl, linEpoch_T bs eta nTrain s, linearTrain_T bs eta nTrain N s⟩

/-- Claim C5: within one epoch of the linear loop the weights are constant
through the whole mini-batch loop — after any prefix of the batches, every
non-accumulator field still holds its epoch-start value — and each weight
matrix is then mutated exactly once, at epoch end, by adding `eta / 75` times
the delta accumulated from the epoch-start weights (`deltaWOf` / `deltaW0Of`
sum `e @ h.T` and `B @ e @ x.T` with `h`, `e` taken at the epoch-start
`W0`, `W`); the reported loss likewise comes from epoch-start weights only. -/
theorem claim5_weights_constant_within_epoch :
    ∀ (nx nh ny k : ℕ)
      (bs : List (Matrix (Fin nx) (Fin k) ℚ × Matrix (Fin ny) (Fin k) ℚ))
      (eta : ℚ) (s : LinState nx nh ny),
      (∀ i : ℕ,
        ((bs.take i).foldl (fun st p => linBatchStep p.1 p.2 st)
          { s with dW0 := 0, dW := 0, loss := 0 }).W = s.W ∧
        ((bs.take i).foldl (fun st p => linBatchStep p.1 p.2 st)
          { s with dW0 := 0, dW := 0, loss := 0 }).W0 = s.W0 ∧
        ((bs.take i).foldl (fun st p => linBatchStep p.1 p.2 st)
          { s with dW0 := 0, dW := 0, loss := 0 }).T = s.T ∧
        ((bs.take i).foldl (fun st p => linBatchStep p.1 p.2 st)
          { s with dW0 := 0, dW := 0, loss := 0 }).b0 = s.b0 ∧
        ((bs.take i).foldl (fun st p => linBatchStep p.1 p.2 st)
          { s with dW0 := 0, dW := 0, loss := 0 }).b = s.b ∧
        ((bs.take i).foldl (fun st p => linBatchStep p.1 p.2 st)
          { s with dW0 := 0, dW := 0, loss := 0 }).B = s.B) ∧
      (linEpoch bs eta 75 s).W = s.W + (eta / (75 : ℚ)) • deltaWOf s bs ∧
      (linEpoch bs eta 75 s).W0 = s.W0 + (eta / (75 : ℚ)) • deltaW0Of s bs ∧
      (linEpoch bs eta 75 s).loss = lossOf s bs := by
  intro nx nh ny k bs eta s
  refine ⟨fun i => ?_, ?_, ?_, linEpoch_loss bs eta 75 s⟩
  · obtain ⟨hT, hW0, hW, hb0, hb, hB⟩ :=
      foldLin_frame (bs.take i) { s with dW0 := 0, dW := 0, loss := 0 }
    exact ⟨hW, hW0, hT, hb0, hb, hB⟩
  · have h := linEpoch_W bs eta 75 s
    simpa using h
  · have h := linEpoch_W0 bs eta 75 s
    simpa using h

/-- Claim C7: the linear training computation is a total function that
performs exactly `num_epochs = 1000` applications of the epoch body, each of
which folds over the fixed finite batch list; there is no other exit or
repeat condition. -/
theorem claim7_fixed_iteration_count :
    ∀ (nx nh ny k : ℕ)
      (bs : List (Matrix (Fin nx) (Fin k) ℚ × Matrix (Fin ny) (Fin k) ℚ))
      (eta : ℚ) (nTrain : ℕ) (s : LinState nx nh ny),
      linearTrain bs eta nTrain numEpochsLin s = (linEpoch bs eta nTrain)^[1000] s ∧
      numEpochsLin = 1000 := by
  intro nx nh ny k bs eta nTrain s
  exact ⟨linearTrain_iterate bs eta nTrain numEpochsLin s, rfl⟩

/-- Claim C8: no operation catches or recovers from an error: iterating the
training loop over a fallible batch source runs to completion when every
fetch succeeds, and the first failing fetch propagates uncaught — the run
ends with that error and with the state exactly as it stood at the failure
point. -/
theorem claim8_no_error_handling :
    ∀ (σ β ε : Type) (step : σ → β → σ) (pre : List β) (err : ε)
      (post : List (Except ε β)) (s : σ),
      runFallible step (pre.map (Except.ok : β → Except ε β)) s =
        Except.ok (pre.foldl step s) ∧
      runFallible step (pre.map Except.ok ++ Except.error err :: post) s =
        Except.error (err, pre.foldl step s) := by
  intro σ β ε step pre err post s
  exact ⟨runFallible_ok step pre s, runFallible_error step pre err post s⟩

/-- Claim C9: the bias vectors `b0` and `b` have no effect on anything the
program computes: replacing them by arbitrary other draws leaves the trained
weights, the per-epoch loss, the test error, and the non-linear epoch's
weights and loss unchanged in both experiments. -/
theorem claim9_biases_unused :
    ∀ (nx nh ny k kt N : ℕ)
      (bs : List (Matrix (Fin nx) (Fin k) ℚ × Matrix (Fin ny) (Fin k) ℚ))
      (eta : ℚ) (nTrain : ℕ) (s : LinState nx nh ny)
      (v0 : Fin nh → ℚ) (v : Fin ny → ℚ)
      (xt : Matrix (Fin nx) (Fin kt) ℚ) (yt : Matrix (Fin ny) (Fin kt) ℚ),
      ((linearTrain bs eta nTrain N { s with b0 := v0, b := v }).W =
        (linearTrain bs eta nTrain N s).W ∧
       (linearTrain bs eta nTrain N { s with b0 := v0, b := v }).W0 =
        (linearTrain bs eta nTrain N s).W0 ∧
       (linearTrain bs eta nTrain N { s with b0 := v0, b := v }).loss =
        (linearTrain bs eta nTrain N s).loss ∧
       testError (linearTrain bs eta nTrain N { s with b0 := v0, b := v }) xt yt =
        testError (linearTrain bs eta nTrain N s) xt yt) ∧
      (∀ (kb : ℕ)
         (bsr : List (Matrix (Fin kb) (Fin nx) ℝ × Matrix (Fin ny) (Fin kb) ℝ))
         (etar : ℝ) (t : NLState nx nh ny) (w0 : Fin nh → ℝ) (w : Fin ny → ℝ),
        (nlEpoch bsr etar { t with b0 := w0, b := w }).W = (nlEpoch bsr etar t).W ∧
        (nlEpoch bsr etar { t with b0 := w0, b := w }).W0 = (nlEpoch bsr etar t).W0 ∧
        (nlEpoch bsr etar { t with b0 := w0, b := w }).loss = (nlEpoch bsr etar t).loss) := by
  intro nx nh ny k kt N bs eta nTrain s v0 v xt yt
  constructor
  · rw [linearTrain_bias]
    exact ⟨rfl, rfl, rfl, rfl⟩
  · intro kb bsr etar t w0 w
    rw [nlEpoch_bias]
    exact ⟨rfl, rfl, rfl⟩

/-- Claim C10: the sigmoid helper is total — its denominator `1 + exp(-x)` is
strictly positive for every real input — and its output lies strictly in
`(0, 1)`; consequently every entry of the non-linear activations
`h = sigma(W0 @ x.T)` and `y = sigma(W @ h)` lies in `(0, 1)` and the
derivative factors `h * (1 - h)` and `y * (1 - y)` are entrywise strictly
positive. -/
theorem claim10_sigma_total_and_bounded :
    (∀ x : ℝ, 0 < 1 + Real.exp (-x) ∧ 0 < sigma x ∧ sigma x < 1) ∧
    (∀ (nx nh ny kb : ℕ) (W0 : Matrix (Fin nh) (Fin nx) ℝ)
       (W : Matrix (Fin ny) (Fin nh) ℝ) (xb : Matrix (Fin kb) (Fin nx) ℝ)
       (i : Fin nh) (r : Fin ny) (j : Fin kb),
      (0 < matSigma (W0 * xbᵀ) i j ∧ matSigma (W0 * xbᵀ) i j < 1 ∧
        0 < matSigma (W0 * xbᵀ) i j * (1 - matSigma (W0 * xbᵀ) i j)) ∧
      (0 < matSigma (W * matSigma (W0 * xbᵀ)) r j ∧
        matSigma (W * matSigma (W0 * xbᵀ)) r j < 1 ∧
        0 < matSigma (W * matSigma (W0 * xbᵀ)) r j *
          (1 - matSigma (W * matSigma (W0 * xbᵀ)) r j))) := by
  constructor
  · exact sigma_bounds
  · intro nx nh ny kb W0 W xb i r j
    exact ⟨⟨(sigma_bounds ((W0 * xbᵀ) i j)).2.1, (sigma_bounds ((W0 * xbᵀ) i j)).2.2,
        sigma_deriv_pos ((W0 * xbᵀ) i j)⟩,
      ⟨(sigma_bounds ((W * matSigma (W0 * xbᵀ)) r j)).2.1,
        (sigma_bounds ((W * matSigma (W0 * xbᵀ)) r j)).2.2,
        sigma_deriv_pos ((W * matSigma (W0 * xbᵀ)) r j)⟩⟩

/-- Claim C6: the batch split of the linear experiment succeeds and fixes the
true batch size at 25, not the configured 20: `train_test_split` leaves 75
training columns, `num_batches = 75 / 20 = 3.75` is not an integer, yet
`np.split` does not raise — the Python-float modulo `75 % 3.75` is zero — and
returns exactly 3 batches of 25 columns each whose concatenation in order is
`x_train`; no batch has the configured `batch_size` of 20 columns. -/
theorem claim6_true_batch_size_25 :
    trainTestSizes numInputs (1 / 4) = (75, 25) ∧
    (75 : ℚ) / (batchSizeLin : ℚ) = 15 / 4 ∧
    ((⌊(15 / 4 : ℚ)⌋ : ℚ) ≠ (15 / 4 : ℚ)) ∧
    pyFloatMod (75 : ℚ) ((75 : ℚ) / (batchSizeLin : ℚ)) = 0 ∧
    npSplitSizes 75 ((75 : ℚ) / (batchSizeLin : ℚ)) = some [25, 25, 25] ∧
    (∀ (f : Fin 75 → (Fin 30 → ℚ)),
      (chunksOf [25, 25, 25] (List.ofFn f)).join = List.ofFn f ∧
      (chunksOf [25, 25, 25] (List.ofFn f)).length = 3 ∧
      ∀ c ∈ chunksOf [25, 25, 25] (List.ofFn f),
        c.length = 25 ∧ c.length ≠ batchSizeLin) := by
  have hsum : ∀ f : Fin 75 → (Fin 30 → ℚ),
      ([25, 25, 25] : List ℕ).sum = (List.ofFn f).length := by
    intro f; simp
  refine ⟨?_, ?_, by norm_num, ?_, ?_, fun f => ⟨chunksOf_join _ _ (hsum f), ?_, ?_⟩⟩
  · rw [trainTestSizes, numInputs]
    norm_num
    decide
  · rw [batchSizeLin]
    norm_num
  · rw [pyFloatMod, batchSizeLin]
    norm_num
  · rw [npSplitSizes, pyFloatMod, pyInt, batchSizeLin]
    norm_num [npArraySplitSizes, List.replicate]
    decide
  · have hlen := chunksOf_lengths [25, 25, 25] (List.ofFn f) (hsum f)
    have h3 := congrArg List.length hlen
    rw [List.length_map] at h3
    exact h3
  · intro c hc
    have hlen := chunksOf_lengths [25, 25, 25] (List.ofFn f) (hsum f)
    have hmem : c.length ∈ ([25, 25, 25] : List ℕ) := by
      rw [← hlen]
      exact List.mem_map_of_mem List.length hc
    have h25 : c.length = 25 := by
      simp only [List.mem_cons, List.not_mem_nil, or_false] at hmem
      rcases hmem with h | h | h <;> exact h
    exact ⟨h25, by rw [h25, batchSizeLin]; decide⟩

/-- Claim C2, counterexample: the per-epoch loss of the linear loop does not
strictly decrease for every admissible initialization. At the concrete run
`sStar` — target `tStar`, labels `T @ x` (the all-ones batches), and all
weight, bias and feedback draws equal to `0`, each drawn from inside the
notebook's initialization ranges — the loss of the second epoch equals the
loss of the first epoch (both are `375`), so it is not smaller. -/
theorem claim2_counterexample_loss_not_decreasing :
    (linEpoch batchesStar etaLin 75 sStar).loss = 375 ∧
    ¬ ((linEpoch batchesStar etaLin 75 (linEpoch batchesStar etaLin 75 sStar)).loss <
       (linEpoch batchesStar etaLin 75 sStar).loss) := by
  have h1 := linEpoch_zeroWeights batchesStar etaLin 75 sStar rfl rfl rfl
  have h2 := linEpoch_zeroWeights batchesStar etaLin 75
    (linEpoch batchesStar etaLin 75 sStar) h1.1 h1.2.1 h1.2.2.1
  constructor
  · rw [h1.2.2.2]
    simp [batchesStar, frobSq, yBatchStar, List.map_replicate, List.sum_replicate]
    norm_num
  · rw [h2.2.2.2, h1.2.2.2]
    exact lt_irrefl _

/-- Claim C2, amended: the loss is not an invariant of the loop but a function
of the initialization; in particular, from any initialization whose weight
matrices and feedback matrix are all zero, every epoch of the linear training
loop computes exactly the same loss as the first epoch (the weights never
move), so the strict per-epoch decrease seen in the recorded run is an
outcome of its particular random draws, not a property of the code. -/
theorem claim2_amended_loss_constant_from_zero_init :
    ∀ (nx nh ny k : ℕ)
      (bs : List (Matrix (Fin nx) (Fin k) ℚ × Matrix (Fin ny) (Fin k) ℚ))
      (eta : ℚ) (nTrain : ℕ) (T : Matrix (Fin ny) (Fin nx) ℚ)
      (v0 : Fin nh → ℚ) (v : Fin ny → ℚ) (m : ℕ),
      ((linEpoch bs eta nTrain)^[m + 1]
        (⟨T, 0, v0, 0, v, 0, 0, 0, 0⟩ : LinState nx nh ny)).loss =
      (linEpoch bs eta nTrain (⟨T, 0, v0, 0, v, 0, 0, 0, 0⟩ : LinState nx nh ny)).loss := by
  intro nx nh ny k bs eta nTrain T v0 v m
  have hiter := iterate_zeroWeights bs eta nTrain
    (⟨T, 0, v0, 0, v, 0, 0, 0, 0⟩ : LinState nx nh ny) rfl rfl rfl m
  rw [Function.iterate_succ_apply',
    (linEpoch_zeroWeights bs eta nTrain _ hiter.1 hiter.2.1 hiter.2.2).2.2.2,
    (linEpoch_zeroWeights bs eta nTrain
      (⟨T, 0, v0, 0, v, 0, 0, 0, 0⟩ : LinState nx nh ny) rfl rfl rfl).2.2.2]

/-- Claim C6, witness: on a concrete 75-column training list (all-zero
columns), the first chunk produced by the split is one of the batches and has
25 columns, as the claim's chunk property states. -/
theorem claim6_true_batch_size_25_witness :
    ((List.ofFn (fun _ : Fin 75 => fun _ : Fin 30 => (0 : ℚ))).take 25 ∈
      chunksOf [25, 25, 25] (List.ofFn (fun _ : Fin 75 => fun _ : Fin 30 => (0 : ℚ)))) ∧
    ((List.ofFn (fun _ : Fin 75 => fun _ : Fin 30 => (0 : ℚ))).take 25).length = 25 ∧
    ((List.ofFn (fun _ : Fin 75 => fun _ : Fin 30 => (0 : ℚ))).take 25).length ≠
      batchSizeLin := by
  have hmem : (List.ofFn (fun _ : Fin 75 => fun _ : Fin 30 => (0 : ℚ))).take 25 ∈
      chunksOf [25, 25, 25] (List.ofFn (fun _ : Fin 75 => fun _ : Fin 30 => (0 : ℚ))) :=
    List.mem_cons_self _ _
  have h := (claim6_true_batch_size_25.2.2.2.2.2
    (fun _ : Fin 75 => fun _ : Fin 30 => (0 : ℚ))).2.2 _ hmem
  exact ⟨hmem, h.1, h.2⟩
